import Mathlib

/-!
Verification of the hpp-intersect library (src/src/intersect.cc) against its
natural-language specification.

The C++ code computes with `double`; the embedding idealises floating-point
arithmetic as exact rational arithmetic (`ℚ`).  `std::sqrt` is modelled by
`Rat.sqrt`, which agrees with the real square root whenever the argument is a
perfect rational square (all concrete witnesses below are chosen so that every
square root taken is exact).  Calls into `Eigen` eigen-solvers return
numerically approximated eigenvectors and eigenvalues in an unspecified order;
they are modelled as explicit oracle parameters.
-/

unseal Rat.add Rat.mul Rat.inv Rat.sub

/-- Fuel-based Newton iteration for the natural square root, identical to the
iteration of `Nat.sqrt` but structurally recursive, so that concrete witnesses
reduce inside the kernel. -/
def sqrtIterF : ℕ → ℕ → ℕ → ℕ
  | 0, _, guess => guess
  | fuel+1, n, guess =>
    let next := (guess + n / guess) / 2
    if next < guess then sqrtIterF fuel n next else guess

/-- Kernel-computable integer square root, proved equal to `Nat.sqrt`. -/
def natSqrt (n : ℕ) : ℕ := if n ≤ 1 then n else sqrtIterF (n / 2) n (n / 2)

theorem sqrtIterF_eq (n : ℕ) : ∀ (fuel guess : ℕ), guess ≤ fuel →
    sqrtIterF fuel n guess = Nat.sqrt.iter n guess := by
  intro fuel
  induction fuel with
  | zero =>
    intro guess h
    interval_cases guess
    rw [Nat.sqrt.iter]
    simp [sqrtIterF]
  | succ f ih =>
    intro guess h
    rw [Nat.sqrt.iter]
    simp only [sqrtIterF]
    by_cases hlt : (guess + n / guess) / 2 < guess
    · simp only [if_pos hlt, dif_pos hlt]
      exact ih _ (by omega)
    · simp only [if_neg hlt, dif_neg hlt]

theorem natSqrt_eq_sqrt (n : ℕ) : natSqrt n = Nat.sqrt n := by
  unfold natSqrt Nat.sqrt
  split
  · rfl
  · exact sqrtIterF_eq n _ _ le_rfl

/-- The square root on rationals, modelling `std::sqrt` on `double`.  It is
kernel-computable and agrees with the real square root whenever the argument
is a perfect rational square; a negative argument (NaN in the C++ code) is
mapped to 0. -/
def ratSqrt (q : ℚ) : ℚ := mkRat (natSqrt q.num.toNat) (natSqrt q.den)

theorem ratSqrt_eq_sqrt (q : ℚ) : ratSqrt q = Rat.sqrt q := by
  unfold ratSqrt Rat.sqrt Int.sqrt
  rw [natSqrt_eq_sqrt, natSqrt_eq_sqrt]

/-- On the square of a nonnegative rational, `ratSqrt` is exact. -/
theorem ratSqrt_mul_self (q : ℚ) (h : 0 ≤ q) : ratSqrt (q * q) = q := by
  rw [ratSqrt_eq_sqrt, Rat.sqrt_eq, abs_of_nonneg h]

theorem ratSqrt_nonneg (q : ℚ) : 0 ≤ ratSqrt q := by
  rw [ratSqrt_eq_sqrt]; exact Rat.sqrt_nonneg q

/-- A 3-D vector with rational coordinates, modelling `fcl::Vec3f` /
`Eigen::Vector3d`. -/
structure Vec3 where
  x : ℚ
  y : ℚ
  z : ℚ
deriving DecidableEq, Repr

def Vec3.add (a b : Vec3) : Vec3 := ⟨a.x + b.x, a.y + b.y, a.z + b.z⟩

def Vec3.sub (a b : Vec3) : Vec3 := ⟨a.x - b.x, a.y - b.y, a.z - b.z⟩

instance : Add Vec3 := ⟨Vec3.add⟩

instance : Sub Vec3 := ⟨Vec3.sub⟩

/-- Scalar multiplication of a 3-D vector. -/
def Vec3.smul (c : ℚ) (v : Vec3) : Vec3 := ⟨c * v.x, c * v.y, c * v.z⟩

/-- Dot product, modelling `Eigen::Vector3d::dot`. -/
def Vec3.dot (a b : Vec3) : ℚ := a.x * b.x + a.y * b.y + a.z * b.z

/-- Cross product, modelling `Eigen::Vector3d::cross`. -/
def Vec3.cross (a b : Vec3) : Vec3 :=
  ⟨a.y * b.z - a.z * b.y, a.z * b.x - a.x * b.z, a.x * b.y - a.y * b.x⟩

/-- Squared Euclidean norm. -/
def Vec3.normSq (v : Vec3) : ℚ := v.dot v

/-- Euclidean norm, modelling `Eigen::Vector3d::norm` (exact whenever the
squared norm is a perfect rational square). -/
def Vec3.norm (v : Vec3) : ℚ := ratSqrt v.normSq

/-- Normalisation `v / v.norm()`, modelling `Eigen::Vector3d::normalize`. -/
def vnormalize (v : Vec3) : Vec3 := Vec3.smul (1 / v.norm) v

@[simp] theorem Vec3.add_def (a b : Vec3) :
    a + b = ⟨a.x + b.x, a.y + b.y, a.z + b.z⟩ := rfl

@[simp] theorem Vec3.sub_def (a b : Vec3) :
    a - b = ⟨a.x - b.x, a.y - b.y, a.z - b.z⟩ := rfl

/-- Helper class from intersect.cc saving triangle vertex positions in the
world frame. -/
structure TrianglePoints where
  p1 : Vec3
  p2 : Vec3
  p3 : Vec3
deriving DecidableEq, Repr

/-- The sign function `boost::math::sign`: -1, 0 or +1. -/
def sgn (q : ℚ) : Int := if q < 0 then -1 else if 0 < q then 1 else 0

/-- Triangle plane normal: `(t.p2 - t.p1).cross (t.p3 - t.p1)` (the vectors
`romC` and `affC` of `TriangleIntersection`, not normalised). -/
def triNormal (t : TrianglePoints) : Vec3 := (t.p2 - t.p1).cross (t.p3 - t.p1)

/-- Plane offset `C3 = (-C).dot(p1)` (the scalars `romC3` / `affC3`). -/
def planeOffset (t : TrianglePoints) : ℚ := -((triNormal t).dot t.p1)

/-- Signed distances (scaled by the squared normal length) from the three
vertices of `other` to the plane of `t`: the vectors `a2r` / `r2a`. -/
def signedDists (t other : TrianglePoints) : ℚ × ℚ × ℚ :=
  ((triNormal t).dot other.p1 + planeOffset t,
   (triNormal t).dot other.p2 + planeOffset t,
   (triNormal t).dot other.p3 + planeOffset t)

/-- The early-rejection condition of `TriangleIntersection`: all three signed
distances strictly negative, or all three strictly positive. -/
def allStrictSame (d : ℚ × ℚ × ℚ) : Prop :=
  (d.1 < 0 ∧ d.2.1 < 0 ∧ d.2.2 < 0) ∨ (0 < d.1 ∧ 0 < d.2.1 ∧ 0 < d.2.2)

instance (d : ℚ × ℚ × ℚ) : Decidable (allStrictSame d) := by
  unfold allStrictSame; infer_instance

/-- Direction of the plane-intersection line: `D = affC.cross(romC)`,
normalised. -/
def lineDir (rom aff : TrianglePoints) : Vec3 :=
  vnormalize ((triNormal aff).cross (triNormal rom))

/-- The point `p` on the intersection line computed by the case split of
intersect.cc lines 323-352.  `D` is the normalised direction; the threshold
1e-6 of the source is the literal 1/1000000; `Eigen`'s `isZero(prec)` is
modelled as all coefficients being at most `prec` in absolute value. -/
def linePoint (rom aff : TrianglePoints) : Vec3 :=
  let romC := triNormal rom
  let romC3 := planeOffset rom
  let affC := triNormal aff
  let affC3 := planeOffset aff
  let D := lineDir rom aff
  if |D.z| < 1/1000000 then
    if |affC.x| ≤ 1/1000000 ∧ |affC.y| ≤ 1/1000000 then
      let Z := -affC3 / affC.z
      let Y : ℚ := 0
      let X := ((affC.z - romC.z) * Z - romC.y * Y + affC3 - romC3) / romC.x
      ⟨X, Y, Z⟩
    else if |romC.x| ≤ 1/1000000 ∧ |romC.y| ≤ 1/1000000 then
      let Z := -romC3 / romC.z
      let Y : ℚ := 0
      let X := ((romC.z - affC.z) * Z - affC.y * Y + romC3 - affC3) / affC.x
      ⟨X, Y, Z⟩
    else if |affC.y| < 1/1000000 ∧ |romC.y| < 1/1000000 then
      let Y : ℚ := 0
      let X := (romC3 - affC3 * (romC.z / affC.z)) /
        (affC.x * (romC.z / affC.z) - romC.x)
      let Z := (-affC.x * X - affC3) / affC.z
      ⟨X, Y, Z⟩
    else
      let X : ℚ := 0
      let Y := (romC3 - affC3 * (romC.z / affC.z)) /
        (affC.y * (romC.z / affC.z) - romC.y)
      let Z := (-affC.y * Y - affC3) / affC.z
      ⟨X, Y, Z⟩
  else
    let Z : ℚ := 0
    if |affC.x| < 1/1000000 then
      let X := ((affC.z * romC.y - romC.z * affC.y) * Z +
        affC3 * romC.y - romC3 * affC.y) / (romC.x * affC.y - affC.x * romC.y)
      let Y := (-affC.x * X - affC.z * Z - affC3) / affC.y
      ⟨X, Y, Z⟩
    else
      let Y := ((affC.z * romC.x - romC.z * affC.x) * Z +
        affC3 * romC.x - romC3 * affC.x) / (romC.y * affC.x - affC.y * romC.x)
      let X := (-affC.y * Y - affC.z * Z - affC3) / affC.x
      ⟨X, Y, Z⟩

/-- Scalar projections `t = D.dot(vertex - p)` of the three vertices of a
triangle onto the intersection line. -/
def projTriple (D p : Vec3) (t : TrianglePoints) : ℚ × ℚ × ℚ :=
  (D.dot (t.p1 - p), D.dot (t.p2 - p), D.dot (t.p3 - p))

/-- Vertex reordering of intersect.cc lines 362-383 (and 394-415): the vertex
alone on its side of the plane is moved to the middle slot; the same
permutation is applied to the projections and to the signed distances. -/
def reorder (t d : ℚ × ℚ × ℚ) : (ℚ × ℚ × ℚ) × (ℚ × ℚ × ℚ) :=
  if sgn d.1 = sgn d.2.1 then
    ((t.1, t.2.2, t.2.1), (d.1, d.2.2, d.2.1))
  else if sgn d.1 = sgn d.2.2 then
    ((t.1, t.2.1, t.2.2), (d.1, d.2.1, d.2.2))
  else
    ((t.2.1, t.1, t.2.2), (d.2.1, d.1, d.2.2))

/-- Linear interpolation of the two crossing parameters (intersect.cc lines
385-387 and 416-418) from reordered projections and distances. -/
def interpEnds (td : (ℚ × ℚ × ℚ) × (ℚ × ℚ × ℚ)) : ℚ × ℚ :=
  let t := td.1
  let d := td.2
  (t.1 + (t.2.1 - t.1) * d.1 / (d.1 - d.2.1),
   t.2.1 + (t.2.2 - t.2.1) * d.2.1 / (d.2.1 - d.2.2))

/-- Scalar interval of the `aff` triangle along the intersection line
(the vector `afft`). -/
def afftOf (rom aff : TrianglePoints) : ℚ × ℚ :=
  interpEnds (reorder (projTriple (lineDir rom aff) (linePoint rom aff) aff)
    (signedDists rom aff))

/-- Scalar interval of the `rom` triangle along the intersection line
(the vector `romt`). -/
def romtOf (rom aff : TrianglePoints) : ℚ × ℚ :=
  interpEnds (reorder (projTriple (lineDir rom aff) (linePoint rom aff) rom)
    (signedDists aff rom))

/-- The overlap condition of intersect.cc lines 420-423, verbatim:
`(min(afft) < max(romt) && min(afft) > min(romt)) ||
 (min(romt) < max(afft) && min(romt) > min(afft))`. -/
def overlapCond (afft romt : ℚ × ℚ) : Prop :=
  (min afft.1 afft.2 < max romt.1 romt.2 ∧ min afft.1 afft.2 > min romt.1 romt.2) ∨
  (min romt.1 romt.2 < max afft.1 afft.2 ∧ min romt.1 romt.2 > min afft.1 afft.2)

instance (a r : ℚ × ℚ) : Decidable (overlapCond a r) := by
  unfold overlapCond; infer_instance

/-- A Fast Triangle-Triangle Intersection Test by Tomas Moeller, as
implemented by `TriangleIntersection` of intersect.cc (lines 271-430).
The empty coplanar branch (line 312, a TODO in the source) has no effect and
is omitted. -/
def TriangleIntersection (rom aff : TrianglePoints) : List Vec3 :=
  if allStrictSame (signedDists rom aff) then []
  else if allStrictSame (signedDists aff rom) then []
  else
    let D := lineDir rom aff
    let p := linePoint rom aff
    let afft := afftOf rom aff
    let romt := romtOf rom aff
    if overlapCond afft romt then
      let t1 := max (min afft.1 afft.2) (min romt.1 romt.2)
      let t2 := min (max afft.1 afft.2) (max romt.1 romt.2)
      [p + Vec3.smul t1 D, p + Vec3.smul t2 D]
    else []

/-! Concrete triangles used by witnesses and counterexamples. -/

/-- Triangle in the plane x = 0 with vertices (0,-1,-1), (0,1,-1), (0,0,1);
its chord along the z axis is the segment z in [-1,1]. -/
def triA : TrianglePoints := ⟨⟨0,-1,-1⟩, ⟨0,1,-1⟩, ⟨0,0,1⟩⟩

/-- Triangle in the plane y = 0 with vertices (-1,0,-1), (1,0,-1), (0,0,1);
its chord along the z axis is also the segment z in [-1,1]. -/
def triB : TrianglePoints := ⟨⟨-1,0,-1⟩, ⟨1,0,-1⟩, ⟨0,0,1⟩⟩

/-- Triangle in the plane x = 0 with vertices (0,-1,0), (0,1,0), (0,0,2);
its chord along the z axis is the segment z in [0,2]. -/
def triC : TrianglePoints := ⟨⟨0,-1,0⟩, ⟨0,1,0⟩, ⟨0,0,2⟩⟩

/-- Triangle in the plane y = 0 with vertices (-1,0,0), (1,0,0), (0,0,1);
its chord along the z axis is the segment z in [0,1]. -/
def triD : TrianglePoints := ⟨⟨-1,0,0⟩, ⟨1,0,0⟩, ⟨0,0,1⟩⟩

/-- Triangle in the plane z = 0. -/
def triE : TrianglePoints := ⟨⟨0,0,0⟩, ⟨1,0,0⟩, ⟨0,1,0⟩⟩

/-- Triangle strictly above the plane z = 0. -/
def triF : TrianglePoints := ⟨⟨0,0,1⟩, ⟨1,0,1⟩, ⟨0,1,2⟩⟩

/-- Shared helper: if either strict-sign separation test fires, the
intersection result is empty. -/
theorem sepEmpty (rom aff : TrianglePoints)
    (h : allStrictSame (signedDists rom aff) ∨ allStrictSame (signedDists aff rom)) :
    TriangleIntersection rom aff = [] := by
  unfold TriangleIntersection
  rcases h with h1 | h2
  · rw [if_pos h1]
  · by_cases h1 : allStrictSame (signedDists rom aff)
    · rw [if_pos h1]
    · rw [if_neg h1, if_pos h2]

/-- Claim C1, counterexample: the triangles `triA` and `triB` pass both
plane-separation tests and their scalar intervals along the intersection
line are both (-1, 1) — the intervals overlap (indeed coincide, with
nonempty interior) — yet `TriangleIntersection` returns an empty result,
because the source condition additionally requires one interval minimum to
lie strictly between the bounds of the other interval. -/
theorem C1_counterexample :
    ¬ allStrictSame (signedDists triA triB) ∧
    ¬ allStrictSame (signedDists triB triA) ∧
    afftOf triA triB = (-1, 1) ∧ romtOf triA triB = (-1, 1) ∧
    max (min (afftOf triA triB).1 (afftOf triA triB).2)
        (min (romtOf triA triB).1 (romtOf triA triB).2) <
      min (max (afftOf triA triB).1 (afftOf triA triB).2)
        (max (romtOf triA triB).1 (romtOf triA triB).2) ∧
    TriangleIntersection triA triB = [] := by decide

/-- Claim C1, amended: for every pair of triangles that passes both
plane-separation tests, the result is the two 3-D points `p + D*t1` and
`p + D*t2`, where `t1` is the larger of the two interval minima and `t2`
the smaller of the two interval maxima, exactly when the source overlap
condition holds (the minimum of one interval lies strictly between the
minimum and the maximum of the other interval); otherwise — including
overlapping configurations whose interval minima coincide — the result is
empty. -/
theorem C1_interval_amended (rom aff : TrianglePoints)
    (h1 : ¬ allStrictSame (signedDists rom aff))
    (h2 : ¬ allStrictSame (signedDists aff rom)) :
    TriangleIntersection rom aff =
      if overlapCond (afftOf rom aff) (romtOf rom aff) then
        [linePoint rom aff +
          Vec3.smul (max (min (afftOf rom aff).1 (afftOf rom aff).2)
            (min (romtOf rom aff).1 (romtOf rom aff).2)) (lineDir rom aff),
         linePoint rom aff +
          Vec3.smul (min (max (afftOf rom aff).1 (afftOf rom aff).2)
            (max (romtOf rom aff).1 (romtOf rom aff).2)) (lineDir rom aff)]
      else [] := by
  unfold TriangleIntersection
  rw [if_neg h1, if_neg h2]

/-- Claim C1, witness: the amended theorem applied to the concrete pair
`triD`, `triC`, whose hypotheses hold by computation. -/
theorem C1_amended_witness :
    (¬ allStrictSame (signedDists triD triC) ∧
     ¬ allStrictSame (signedDists triC triD)) ∧
    TriangleIntersection triD triC =
      (if overlapCond (afftOf triD triC) (romtOf triD triC) then
        [linePoint triD triC +
          Vec3.smul (max (min (afftOf triD triC).1 (afftOf triD triC).2)
            (min (romtOf triD triC).1 (romtOf triD triC).2)) (lineDir triD triC),
         linePoint triD triC +
          Vec3.smul (min (max (afftOf triD triC).1 (afftOf triD triC).2)
            (max (romtOf triD triC).1 (romtOf triD triC).2)) (lineDir triD triC)]
      else []) :=
  ⟨⟨by decide, by decide⟩, C1_interval_amended triD triC (by decide) (by decide)⟩

/-- Claim C2: if the three signed distances of the vertices of one triangle
to the plane of the other all share a strict sign (in either orientation),
`TriangleIntersection` returns an empty result. -/
theorem C2_plane_separation (rom aff : TrianglePoints)
    (h : allStrictSame (signedDists rom aff) ∨ allStrictSame (signedDists aff rom)) :
    TriangleIntersection rom aff = [] :=
  sepEmpty rom aff h

/-- Claim C2, witness: the triangle `triF` lies strictly above the plane of
`triE`, and the intersection result is empty. -/
theorem C2_witness :
    (allStrictSame (signedDists triE triF) ∨ allStrictSame (signedDists triF triE)) ∧
    TriangleIntersection triE triF = [] :=
  ⟨by decide, C2_plane_separation triE triF (by decide)⟩

/-- Claim C3, counterexample: `TriangleIntersection` is not symmetric.  For
the concrete triangles `triC` (chord [0,2] along the z axis) and `triD`
(chord [0,1]), the call (triC, triD) returns an empty result while the
swapped call (triD, triC) returns a two-point segment — the two interval
minima coincide, which the asymmetric overlap condition of the source
treats differently in the two orientations. -/
theorem C3_counterexample :
    TriangleIntersection triC triD = [] ∧
    TriangleIntersection triD triC = [⟨0,0,1⟩, ⟨0,0,0⟩] ∧
    TriangleIntersection triD triC ≠ [] := by decide

/-- Claim C3, amended: the plane-separation rejection is symmetric — if
either orientation is rejected by the strict-sign tests, then both
`TriangleIntersection(R,F)` and `TriangleIntersection(F,R)` return the
empty result.  (Full symmetry of the returned segment fails; see the
counterexample.) -/
theorem C3_rejection_symm (R F : TrianglePoints)
    (h : allStrictSame (signedDists R F) ∨ allStrictSame (signedDists F R)) :
    TriangleIntersection R F = [] ∧ TriangleIntersection F R = [] :=
  ⟨sepEmpty R F h, sepEmpty F R h.symm⟩

/-- Claim C3, witness: the amended theorem applied to the separated pair
`triE`, `triF`. -/
theorem C3_amended_witness :
    (allStrictSame (signedDists triE triF) ∨ allStrictSame (signedDists triF triE)) ∧
    (TriangleIntersection triE triF = [] ∧ TriangleIntersection triF triE = []) :=
  ⟨by decide, C3_rejection_symm triE triF (by decide)⟩

/-- Claim C9: for every pair of input triangles the result of
`TriangleIntersection` contains either zero or exactly two points. -/
theorem C9_segment_cardinality (rom aff : TrianglePoints) :
    (TriangleIntersection rom aff).length = 0 ∨
    (TriangleIntersection rom aff).length = 2 := by
  unfold TriangleIntersection
  by_cases h1 : allStrictSame (signedDists rom aff)
  · rw [if_pos h1]; exact Or.inl rfl
  · rw [if_neg h1]
    by_cases h2 : allStrictSame (signedDists aff rom)
    · rw [if_pos h2]; exact Or.inl rfl
    · rw [if_neg h2]
      by_cases h3 : overlapCond (afftOf rom aff) (romtOf rom aff)
      · rw [if_pos h3]; exact Or.inr rfl
      · rw [if_neg h3]; exact Or.inl rfl

/-! Matrix model and the conic / plane fitting functions. -/

/-- A 3 by 3 rational matrix, modelling `Eigen::Matrix3d`. -/
structure Mat3 where
  m00 : ℚ
  m01 : ℚ
  m02 : ℚ
  m10 : ℚ
  m11 : ℚ
  m12 : ℚ
  m20 : ℚ
  m21 : ℚ
  m22 : ℚ
deriving DecidableEq, Repr

def Mat3.zero : Mat3 := ⟨0,0,0,0,0,0,0,0,0⟩

def Mat3.add (A B : Mat3) : Mat3 :=
  ⟨A.m00+B.m00, A.m01+B.m01, A.m02+B.m02,
   A.m10+B.m10, A.m11+B.m11, A.m12+B.m12,
   A.m20+B.m20, A.m21+B.m21, A.m22+B.m22⟩

def Mat3.neg (A : Mat3) : Mat3 :=
  ⟨-A.m00, -A.m01, -A.m02, -A.m10, -A.m11, -A.m12, -A.m20, -A.m21, -A.m22⟩

def Mat3.transpose (A : Mat3) : Mat3 :=
  ⟨A.m00, A.m10, A.m20, A.m01, A.m11, A.m21, A.m02, A.m12, A.m22⟩

def Mat3.mul (A B : Mat3) : Mat3 :=
  ⟨A.m00*B.m00 + A.m01*B.m10 + A.m02*B.m20,
   A.m00*B.m01 + A.m01*B.m11 + A.m02*B.m21,
   A.m00*B.m02 + A.m01*B.m12 + A.m02*B.m22,
   A.m10*B.m00 + A.m11*B.m10 + A.m12*B.m20,
   A.m10*B.m01 + A.m11*B.m11 + A.m12*B.m21,
   A.m10*B.m02 + A.m11*B.m12 + A.m12*B.m22,
   A.m20*B.m00 + A.m21*B.m10 + A.m22*B.m20,
   A.m20*B.m01 + A.m21*B.m11 + A.m22*B.m21,
   A.m20*B.m02 + A.m21*B.m12 + A.m22*B.m22⟩

def Mat3.mulVec (A : Mat3) (v : Vec3) : Vec3 :=
  ⟨A.m00*v.x + A.m01*v.y + A.m02*v.z,
   A.m10*v.x + A.m11*v.y + A.m12*v.z,
   A.m20*v.x + A.m21*v.y + A.m22*v.z⟩

def Mat3.det (A : Mat3) : ℚ :=
  A.m00*(A.m11*A.m22 - A.m12*A.m21) - A.m01*(A.m10*A.m22 - A.m12*A.m20) +
    A.m02*(A.m10*A.m21 - A.m11*A.m20)

/-- Matrix inverse by the adjugate formula, modelling `Eigen` dense inverse.
On a singular matrix `Eigen` produces non-finite garbage; here the division
by a zero determinant yields zero entries (no claim depends on that case). -/
def Mat3.inv (A : Mat3) : Mat3 :=
  let d := A.det
  ⟨(A.m11*A.m22 - A.m12*A.m21)/d, (A.m02*A.m21 - A.m01*A.m22)/d,
   (A.m01*A.m12 - A.m02*A.m11)/d,
   (A.m12*A.m20 - A.m10*A.m22)/d, (A.m00*A.m22 - A.m02*A.m20)/d,
   (A.m02*A.m10 - A.m00*A.m12)/d,
   (A.m10*A.m21 - A.m11*A.m20)/d, (A.m01*A.m20 - A.m00*A.m21)/d,
   (A.m00*A.m11 - A.m01*A.m10)/d⟩

/-- Column selection (column index 0, 1 or 2). -/
def Mat3.colSel (A : Mat3) (i : ℕ) : Vec3 :=
  if i = 0 then ⟨A.m00, A.m10, A.m20⟩
  else if i = 1 then ⟨A.m01, A.m11, A.m21⟩
  else ⟨A.m02, A.m12, A.m22⟩

/-- Outer product of two 3-D vectors. -/
def outer (u v : Vec3) : Mat3 :=
  ⟨u.x*v.x, u.x*v.y, u.x*v.z, u.y*v.x, u.y*v.y, u.y*v.z, u.z*v.x, u.z*v.y, u.z*v.z⟩

/-- Mean of a list of rationals (Eigen `.mean()`); the empty list gives the
total-division value 0/0 = 0. -/
def qMean (l : List ℚ) : ℚ := l.sum / (l.length : ℚ)

/-- Sum of outer products `sum f(p) g(p)^T`, the building block of the design
matrix products `D1^T D1`, `D1^T D2`, `D2^T D2` of `directEllipse`. -/
def gramSum (f g : (ℚ × ℚ) → Vec3) (l : List (ℚ × ℚ)) : Mat3 :=
  (l.map (fun p => outer (f p) (g p))).foldr Mat3.add Mat3.zero

/-- The centred x,y coordinates of the input points (`XY` minus the centroid),
as used by `directEllipse`. -/
def centeredXY (points : List Vec3) : List (ℚ × ℚ) :=
  let cx := qMean (points.map Vec3.x)
  let cy := qMean (points.map Vec3.y)
  points.map (fun p => (p.x - cx, p.y - cy))

/-- Row of the quadratic design matrix `D1`: (u^2, u v, v^2). -/
def quadRow (p : ℚ × ℚ) : Vec3 := ⟨p.1 * p.1, p.1 * p.2, p.2 * p.2⟩

/-- Row of the linear design matrix `D2`: (u, v, 1). -/
def linRow (p : ℚ × ℚ) : Vec3 := ⟨p.1, p.2, 1⟩

/-- The matrix `T = -S3^{-1} S2^T` of `directEllipse`. -/
def TmatOf (points : List Vec3) : Mat3 :=
  let c := centeredXY points
  let S2 := gramSum quadRow linRow c
  let S3 := gramSum linRow linRow c
  Mat3.mul (Mat3.neg (Mat3.inv S3)) (Mat3.transpose S2)

/-- The reduced eigen-problem matrix `M` of `directEllipse` (rows of
`M_orig = S1 + S2 T` rearranged as row2/2, -row1, row0/2). -/
def MmatOf (points : List Vec3) : Mat3 :=
  let c := centeredXY points
  let S1 := gramSum quadRow quadRow c
  let S2 := gramSum quadRow linRow c
  let MO := Mat3.add S1 (Mat3.mul S2 (TmatOf points))
  ⟨MO.m20/2, MO.m21/2, MO.m22/2, -MO.m10, -MO.m11, -MO.m12, MO.m00/2, MO.m01/2, MO.m02/2⟩

/-- The discriminant conditions `4 x z - y^2` evaluated on the three columns
of the (real parts of the) eigenvector matrix. -/
def ellipseConds (E : Mat3) : ℚ × ℚ × ℚ :=
  (4 * E.m00 * E.m20 - E.m10 * E.m10,
   4 * E.m01 * E.m21 - E.m11 * E.m11,
   4 * E.m02 * E.m22 - E.m12 * E.m12)

/-- Number of entries (parameter slots) of the matrix `A0` after the
accumulation loop of `directEllipse`: each destructive `resize(3, i+1)` at a
valid index `i` sets the size to `3 (i+1)`, so the final size is determined
by the last valid index, and is 0 when no index is valid. -/
def A0slots (c : ℚ × ℚ × ℚ) : ℕ :=
  if 0 < c.2.2 then 9 else if 0 < c.2.1 then 6 else if 0 < c.1 then 3 else 0

/-- More than one eigenvector satisfies the elliptic discriminant. -/
def moreThanOneValid (c : ℚ × ℚ × ℚ) : Prop :=
  (0 < c.1 ∧ 0 < c.2.1) ∨ (0 < c.1 ∧ 0 < c.2.2) ∨ (0 < c.2.1 ∧ 0 < c.2.2)

instance (c : ℚ × ℚ × ℚ) : Decidable (moreThanOneValid c) := by
  unfold moreThanOneValid; infer_instance

def noValidEllipseMsg : String :=
  "intersect::directEllipse: Could not create ellipse approximation. Maybe try circle instead?"

/-- Direct least-squares ellipse fit (intersect.cc lines 90-163).  The
`Eigen::EigenSolver` call on the non-symmetric matrix `M` is modelled by the
oracle parameter `eigS`, which returns the real parts of the eigenvector
matrix.  The destructive `A0.resize` of the source leaves previously written
columns uninitialised; uninitialised entries are modelled as 0 (no claim
depends on their values).  The final division is by the Frobenius norm of
the whole matrix `A`. -/
def directEllipse (eigS : Mat3 → Mat3) (points : List Vec3) :
    Except String (List ℚ) :=
  let cx := qMean (points.map Vec3.x)
  let cy := qMean (points.map Vec3.y)
  let T := TmatOf points
  let evec := eigS (MmatOf points)
  let cond := ellipseConds evec
  if A0slots cond < 3 then Except.error noValidEllipseMsg
  else
    let a0 : Vec3 :=
      if 0 < cond.2.1 ∨ 0 < cond.2.2 then ⟨0, 0, 0⟩
      else ⟨evec.m00, evec.m10, evec.m20⟩
    let lastCol : Vec3 :=
      if 0 < cond.2.2 then ⟨evec.m02, evec.m12, evec.m22⟩
      else if 0 < cond.2.1 then ⟨evec.m01, evec.m11, evec.m21⟩
      else ⟨evec.m00, evec.m10, evec.m20⟩
    let tA := Mat3.mulVec T a0
    let A3 := tA.x - 2 * a0.x * cx - a0.y * cy
    let A4 := tA.y - 2 * a0.z * cy - a0.y * cx
    let A5 := tA.z + a0.x * cx * cx + a0.z * cy * cy + a0.y * cx * cy -
      tA.x * cx - tA.y * cy
    let tL := Mat3.mulVec T lastCol
    let extra :=
      if 0 < cond.2.1 ∨ 0 < cond.2.2 then
        lastCol.x^2 + lastCol.y^2 + lastCol.z^2 + tL.x^2 + tL.y^2 + tL.z^2
      else 0
    let nrm := ratSqrt (a0.x^2 + a0.y^2 + a0.z^2 + A3^2 + A4^2 + A5^2 + extra)
    Except.ok [a0.x / nrm, a0.y / nrm, a0.z / nrm, A3 / nrm, A4 / nrm, A5 / nrm]

/-- Closed-form circle fit (intersect.cc lines 165-191): centroid plus mean
radial distance, packed into the 6-coefficient conic form with `B = 0`.
The `std::cout` logging of the source is a side effect with no bearing on
the returned value. -/
def directCircle (points : List Vec3) : List ℚ :=
  let cx := qMean (points.map Vec3.x)
  let cy := qMean (points.map Vec3.y)
  let radius := qMean (points.map (fun p =>
    ratSqrt ((p.x - cx) * (p.x - cx) + (p.y - cy) * (p.y - cy))))
  [1, 0, 1, -2 * cx, -2 * cy, cx * cx + cy * cy - radius * radius]

def wrongParamMsg : String :=
  "getRadius: Wrong number of parameters in conic function!!."

/-- Extraction of circle/ellipse parameters from a conic coefficient vector
(intersect.cc lines 35-88).  Returns (radii, centroid, tau).  The
transcendental `atan` and the constant `M_PI` have no rational counterpart
and are modelled by the oracle parameters `atanO` and `piO`; the circle
branch never uses them.  The 2x2 symmetric eigenvalues are the closed-form
roots `((A+C) -+ sqrt((A-C)^2 + B^2))/2`; `Eigen` returns them in an
unspecified order, fixed here as (smaller, larger) before the reordering
step of the source is applied. -/
def getRadius (atanO : ℚ → ℚ) (piO : ℚ) (params : List ℚ) :
    Except String (List ℚ × (ℚ × ℚ) × ℚ) :=
  if params.length < 6 then Except.error wrongParamMsg
  else if params.getD 1 0 = 0 then
    let cx := params.getD 3 0 / (-2)
    let cy := params.getD 4 0 / (-2)
    Except.ok ([ratSqrt (cx * cx + cy * cy - params.getD 5 0)], (cx, cy), 0)
  else
    let A := params.getD 0 0
    let B := params.getD 1 0
    let C := params.getD 2 0
    let D := params.getD 3 0
    let E := params.getD 4 0
    let F := params.getD 5 0
    let detM0 := F * (A * C - (B/2) * (B/2)) - (D/2) * ((D/2) * C - (B/2) * (E/2)) +
      (E/2) * ((D/2) * (B/2) - A * (E/2))
    let detM := A * C - (B/2) * (B/2)
    let s := ratSqrt ((A - C) * (A - C) + B * B)
    let ev0 := ((A + C) - s) / 2
    let ev1 := ((A + C) + s) / 2
    let lam := if |ev0 - A| > |ev0 - C| then (ev1, ev0) else (ev0, ev1)
    let r0 := ratSqrt (-detM0 / (detM * lam.1))
    let r1 := ratSqrt (-detM0 / (detM * lam.2))
    let cx := (B * E - 2 * C * D) / (4 * A * C - B * B)
    let cy := (B * D - 2 * A * E) / (4 * A * C - B * B)
    let tau0 := (atanO (B / (A - C))) / 2
    let tau := if r0 < r1 then tau0 - piO / 2 else tau0
    Except.ok ([r0, r1], (cx, cy), tau)

/-- True exactly when the computation raised (threw) an error. -/
def isErr {α : Type} (e : Except String α) : Bool :=
  match e with
  | Except.error _ => true
  | Except.ok _ => false

/-! Claims C6, C7, C8: error behaviour of the conic fitters. -/

/-- A conic parameter vector of length 7. -/
def paramsSeven : List ℚ := [1, 0, 1, 0, 0, -1, 5]

/-- Five points (fewer than the six the specification requires). -/
def ptsFive : List Vec3 := [⟨1,0,0⟩, ⟨-1,0,0⟩, ⟨0,1,0⟩, ⟨0,-1,0⟩, ⟨0,0,0⟩]

instance {e a : Type} [DecidableEq e] [DecidableEq a] : DecidableEq (Except e a) :=
  fun x y =>
    match x, y with
    | Except.error u, Except.error v =>
      if h : u = v then isTrue (by rw [h]) else isFalse (by intro hc; cases hc; exact h rfl)
    | Except.ok u, Except.ok v =>
      if h : u = v then isTrue (by rw [h]) else isFalse (by intro hc; cases hc; exact h rfl)
    | Except.error _, Except.ok _ => isFalse (by intro hc; cases hc)
    | Except.ok _, Except.error _ => isFalse (by intro hc; cases hc)

/-- Claim C6, counterexample: `getRadius` does not fail on a parameter
vector of length 7 (a length different from 6): it takes the circle branch
and returns a result, because the source checks only `params.size() < 6`. -/
theorem C6_counterexample :
    paramsSeven.length = 7 ∧
    isErr (getRadius (fun q => q) 0 paramsSeven) = false ∧
    getRadius (fun q => q) 0 paramsSeven = Except.ok ([1], (0, 0), 0) := by
  decide

/-- Claim C6, amended: `getRadius` fails with the WrongParameterCount error
exactly when the conic parameter vector has length smaller than 6; vectors
of length 6 or more (extra entries are ignored) never raise. -/
theorem C6_paramcount_amended (atanO : ℚ → ℚ) (piO : ℚ) (params : List ℚ) :
    isErr (getRadius atanO piO params) = true ↔ params.length < 6 := by
  unfold getRadius
  by_cases h : params.length < 6
  · rw [if_pos h]
    simp [isErr, h]
  · rw [if_neg h]
    by_cases hb : params.getD 1 0 = 0
    · rw [if_pos hb]; simp [isErr, h]
    · rw [if_neg hb]; simp [isErr, h]

/-- Claim C7, counterexample: on an input of 5 points (fewer than 6) the
fitter `directCircle` does not raise TooFewPoints; it returns a full
6-coefficient parameter vector.  Neither fitter contains any input-size
check. -/
theorem C7_counterexample :
    ptsFive.length = 5 ∧ directCircle ptsFive = [1, 0, 1, 0, 0, -16/25] := by
  decide

/-- Claim C7, amended: the conic fitters perform no input-size check and
never raise TooFewPoints.  For every input, also with fewer than 6 points,
`directCircle` returns a 6-coefficient vector, and `directEllipse` either
returns a 6-coefficient vector or raises only the NoValidEllipse error. -/
theorem C7_nosizecheck_amended (points : List Vec3) (eigS : Mat3 → Mat3)
    (_h : points.length < 6) :
    (directCircle points).length = 6 ∧
    (directEllipse eigS points = Except.error noValidEllipseMsg ∨
     ∃ v, directEllipse eigS points = Except.ok v ∧ v.length = 6) := by
  constructor
  · rfl
  · unfold directEllipse
    by_cases hc : A0slots (ellipseConds (eigS (MmatOf points))) < 3
    · rw [if_pos hc]; exact Or.inl rfl
    · rw [if_neg hc]; exact Or.inr ⟨_, rfl, rfl⟩

/-- Eigenvector oracle whose first column satisfies the elliptic
discriminant. -/
def eigSC7 : Mat3 → Mat3 := fun _ => ⟨1,0,0, 0,0,0, 1,0,0⟩

/-- Claim C7, witness: the amended theorem applied to the 5-point input
`ptsFive`. -/
theorem C7_witness :
    ptsFive.length < 6 ∧
    ((directCircle ptsFive).length = 6 ∧
     (directEllipse eigSC7 ptsFive = Except.error noValidEllipseMsg ∨
      ∃ v, directEllipse eigSC7 ptsFive = Except.ok v ∧ v.length = 6)) :=
  ⟨by decide, C7_nosizecheck_amended ptsFive eigSC7 (by decide)⟩

/-- Claim C8: `directEllipse` raises the NoValidEllipse error exactly when
no eigenvector satisfies the elliptic discriminant `4 x z - y^2 > 0`, or
when more than one does but fewer than 3 parameter slots are filled (the
second disjunct never occurs: each valid index resizes `A0` to at least 3
entries); otherwise it returns a 6-coefficient vector without raising. -/
theorem C8_novalid_ellipse (eigS : Mat3 → Mat3) (points : List Vec3) :
    (isErr (directEllipse eigS points) = true ↔
      (¬ (0 < (ellipseConds (eigS (MmatOf points))).1 ∨
          0 < (ellipseConds (eigS (MmatOf points))).2.1 ∨
          0 < (ellipseConds (eigS (MmatOf points))).2.2) ∨
       (moreThanOneValid (ellipseConds (eigS (MmatOf points))) ∧
        A0slots (ellipseConds (eigS (MmatOf points))) < 3))) ∧
    (¬ (¬ (0 < (ellipseConds (eigS (MmatOf points))).1 ∨
           0 < (ellipseConds (eigS (MmatOf points))).2.1 ∨
           0 < (ellipseConds (eigS (MmatOf points))).2.2) ∨
        (moreThanOneValid (ellipseConds (eigS (MmatOf points))) ∧
         A0slots (ellipseConds (eigS (MmatOf points))) < 3)) →
      ∃ v, directEllipse eigS points = Except.ok v ∧ v.length = 6) := by
  have hiff : ∀ c : ℚ × ℚ × ℚ,
      (A0slots c < 3 ↔ ¬ (0 < c.1 ∨ 0 < c.2.1 ∨ 0 < c.2.2)) := by
    intro c
    unfold A0slots
    by_cases h2 : 0 < c.2.2 <;> by_cases h1 : 0 < c.2.1 <;>
      by_cases h0 : 0 < c.1 <;> simp [h0, h1, h2]
  have hmore : ∀ c : ℚ × ℚ × ℚ, moreThanOneValid c → ¬ A0slots c < 3 := by
    intro c hm
    rw [hiff c]
    unfold moreThanOneValid at hm
    tauto
  constructor
  · unfold directEllipse
    by_cases hc : A0slots (ellipseConds (eigS (MmatOf points))) < 3
    · rw [if_pos hc]
      simp only [isErr]
      simp only [eq_self_iff_true, true_iff]
      exact Or.inl ((hiff _).mp hc)
    · rw [if_neg hc]
      simp only [isErr]
      simp only [Bool.false_eq_true, false_iff]
      rintro (hnone | ⟨hm, hs⟩)
      · exact hc ((hiff _).mpr hnone)
      · exact hc hs
  · intro hn
    unfold directEllipse
    by_cases hc : A0slots (ellipseConds (eigS (MmatOf points))) < 3
    · exact absurd (Or.inl ((hiff _).mp hc)) hn
    · rw [if_neg hc]; exact ⟨_, rfl, rfl⟩

/-- Eigenvector oracle whose third column satisfies the elliptic
discriminant. -/
def eigSC8 : Mat3 → Mat3 := fun _ => ⟨0,0,1, 0,0,0, 0,0,1⟩

/-- Claim C8, witness: the success branch of the theorem at a concrete
oracle and input, with the hypothesis discharged by computation. -/
theorem C8_witness :
    ¬ (¬ (0 < (ellipseConds (eigSC8 (MmatOf ptsFive))).1 ∨
          0 < (ellipseConds (eigSC8 (MmatOf ptsFive))).2.1 ∨
          0 < (ellipseConds (eigSC8 (MmatOf ptsFive))).2.2) ∨
       (moreThanOneValid (ellipseConds (eigSC8 (MmatOf ptsFive))) ∧
        A0slots (ellipseConds (eigSC8 (MmatOf ptsFive))) < 3)) ∧
    (∃ v, directEllipse eigSC8 ptsFive = Except.ok v ∧ v.length = 6) :=
  ⟨by decide, (C8_novalid_ellipse eigSC8 ptsFive).2 (by decide)⟩

/-! Claim C5: circle fit round-trip. -/

/-- Claim C5, amended: for every nonempty sample of at least 20 points that
lies exactly on a circle AND whose centroid coincides with the circle
centre (for instance a symmetric or uniform sample), `directCircle`
followed by `getRadius` recovers the centre and the radius exactly, taking
the circle branch with rotation angle tau = 0.  (Without the centroid
condition the fit is biased; see the counterexample.) -/
theorem C5_circle_roundtrip_amended (atanO : ℚ → ℚ) (piO : ℚ)
    (points : List Vec3) (cx cy r : ℚ)
    (hne : points ≠ [])
    (_hlen : 20 ≤ points.length)
    (hcx : qMean (points.map Vec3.x) = cx)
    (hcy : qMean (points.map Vec3.y) = cy)
    (hr : 0 ≤ r)
    (hon : ∀ p ∈ points,
      (p.x - cx) * (p.x - cx) + (p.y - cy) * (p.y - cy) = r * r) :
    getRadius atanO piO (directCircle points) = Except.ok ([r], (cx, cy), 0) := by
  have hrad : qMean (points.map (fun p =>
      ratSqrt ((p.x - cx) * (p.x - cx) + (p.y - cy) * (p.y - cy)))) = r := by
    have hmap : points.map (fun p =>
        ratSqrt ((p.x - cx) * (p.x - cx) + (p.y - cy) * (p.y - cy))) =
        points.map (fun _ => r) := by
      apply List.map_congr_left
      intro p hp
      rw [hon p hp, ratSqrt_mul_self r hr]
    have hn : ((points.length : ℚ)) ≠ 0 := by
      have : points.length ≠ 0 := fun h0 => hne (List.length_eq_zero.mp h0)
      exact_mod_cast this
    rw [hmap]
    unfold qMean
    rw [List.sum_eq_card_nsmul _ r ?hall]
    case hall =>
      intro x hx
      rcases List.mem_map.mp hx with ⟨a, _, h⟩
      exact h.symm
    rw [List.length_map, nsmul_eq_mul]
    exact mul_div_cancel_left₀ r hn
  simp only [directCircle, hcx, hcy, hrad]
  simp only [getRadius]
  rw [if_neg (by simp)]
  rw [if_pos (by simp [List.getD])]
  have h1 : (-2 * cx) / (-2) = cx := by ring
  have h2 : (-2 * cy) / (-2) = cy := by ring
  have h3 : cx * cx + cy * cy - (cx * cx + cy * cy - r * r) = r * r := by ring
  have g3 : ([1, 0, 1, -2 * cx, -2 * cy, cx * cx + cy * cy - r * r] : List ℚ).getD 3 0
      = -2 * cx := rfl
  have g4 : ([1, 0, 1, -2 * cx, -2 * cy, cx * cx + cy * cy - r * r] : List ℚ).getD 4 0
      = -2 * cy := rfl
  have g5 : ([1, 0, 1, -2 * cx, -2 * cy, cx * cx + cy * cy - r * r] : List ℚ).getD 5 0
      = cx * cx + cy * cy - r * r := rfl
  rw [g3, g4, g5, h1, h2, h3, ratSqrt_mul_self r hr]

/-- Four exact points on the unit circle, centred at the origin. -/
def ptsAxes : List Vec3 := [⟨1,0,0⟩, ⟨-1,0,0⟩, ⟨0,1,0⟩, ⟨0,-1,0⟩]

/-- Twenty points (the four axis points of the unit circle, five times
each): a sample on the unit circle whose centroid is the centre. -/
def ptsTwenty : List Vec3 := ptsAxes ++ ptsAxes ++ ptsAxes ++ ptsAxes ++ ptsAxes

/-- Claim C5, witness: the amended round-trip theorem applied to the
concrete 20-point sample `ptsTwenty` on the unit circle. -/
theorem C5_witness :
    (ptsTwenty ≠ [] ∧ 20 ≤ ptsTwenty.length ∧
     qMean (ptsTwenty.map Vec3.x) = 0 ∧ qMean (ptsTwenty.map Vec3.y) = 0 ∧
     (0:ℚ) ≤ 1 ∧
     ∀ p ∈ ptsTwenty, (p.x - 0) * (p.x - 0) + (p.y - 0) * (p.y - 0) = 1 * 1) ∧
    getRadius (fun q => q) 0 (directCircle ptsTwenty) =
      Except.ok ([1], (0, 0), 0) :=
  ⟨⟨by decide, by decide, by decide, by decide, by decide, by decide⟩,
   C5_circle_roundtrip_amended (fun q => q) 0 ptsTwenty 0 0 1 (by decide)
     (by decide) (by decide) (by decide) (by decide) (by decide)⟩

/-- Centroid component of a `getRadius` result. -/
def resCentroid (e : Except String (List ℚ × (ℚ × ℚ) × ℚ)) : ℚ × ℚ :=
  match e with
  | Except.ok v => v.2.1
  | Except.error _ => (0, 0)

/-- Twenty pairwise distinct points lying exactly on the unit circle, with
an asymmetric distribution (their centroid is not the centre). -/
def ptsCircle20 : List Vec3 :=
  [⟨1,0,0⟩, ⟨-1,0,0⟩, ⟨0,1,0⟩, ⟨0,-1,0⟩,
   ⟨3/5,4/5,0⟩, ⟨3/5,-4/5,0⟩, ⟨-3/5,4/5,0⟩, ⟨-3/5,-4/5,0⟩,
   ⟨4/5,3/5,0⟩, ⟨4/5,-3/5,0⟩, ⟨-4/5,3/5,0⟩, ⟨-4/5,-3/5,0⟩,
   ⟨5/13,12/13,0⟩, ⟨5/13,-12/13,0⟩, ⟨-5/13,12/13,0⟩, ⟨-5/13,-12/13,0⟩,
   ⟨12/13,5/13,0⟩, ⟨12/13,-5/13,0⟩, ⟨-12/13,5/13,0⟩,
   ⟨7/25,24/25,0⟩]

/-- Claim C5, counterexample: `ptsCircle20` is a set of 20 pairwise
distinct points lying exactly on the unit circle (centre (0,0), radius 1),
yet `directCircle` followed by `getRadius` reports the centroid of the
sample, (391/6500, 437/6500), as centre — an error of about 0.06, far
beyond any floating tolerance such as 1e-9 — because the mean of an
asymmetric sample of a circle is not its centre. -/
theorem C5_counterexample :
    ptsCircle20.length = 20 ∧ ptsCircle20.Nodup ∧
    (∀ p ∈ ptsCircle20, p.x * p.x + p.y * p.y = 1 ∧ p.z = 0) ∧
    resCentroid (getRadius (fun q => q) 0 (directCircle ptsCircle20)) =
      (391/6500, 437/6500) ∧
    ¬ |(resCentroid (getRadius (fun q => q) 0 (directCircle ptsCircle20))).1 - 0|
        ≤ 1/1000000000 := by decide

/-! Claim C4: the hull resampling step of getIntersectionPoints
(intersect.cc lines 539-554). -/

/-- Lengths of the consecutive hull edges (`(hull[k+1] - hull[k]).norm()`
for `k = 0 .. size-2`). -/
def edgeLens (hull : List Vec3) : List ℚ :=
  (hull.zip hull.tail).map (fun ab => (ab.2 - ab.1).norm)

/-- The resample step length `minDist`: starting from 0.1, every edge longer
than 0.01 and shorter than the current value replaces it (intersect.cc lines
540-545). -/
def resampleMinDist (hull : List Vec3) : ℚ :=
  (edgeLens hull).foldl (fun m l => if m > l ∧ l > 1/100 then l else m) (1/10)

/-- The number of sub-intervals for one hull edge:
`intervals = ceil(norm/minDist)` (intersect.cc line 548), as a natural
number (the C++ loop casts the double to unsigned). -/
def refineIntervals (m : ℚ) (a b : Vec3) : ℕ := (⌈(b - a).norm / m⌉).toNat

/-- Resampling of one hull edge (intersect.cc lines 548-551): the evenly
spaced points `hull[j] + (i+1) edge/intervals` for `i < intervals`. -/
def refineEdge (m : ℚ) (a b : Vec3) : List Vec3 :=
  (List.range (refineIntervals m a b)).map (fun (i : ℕ) =>
    a + Vec3.smul (((i : ℚ) + 1) / ((refineIntervals m a b : ℕ) : ℚ)) (b - a))

/-- The full resampling walk along the hull edges (the `hullRefined`
accumulation loop of intersect.cc lines 546-552). -/
def refineWalk (m : ℚ) : List Vec3 → List Vec3
  | [] => []
  | [_] => []
  | a :: b :: rest => refineEdge m a b ++ refineWalk m (b :: rest)

/-- The resampled hull `hullRefined`. -/
def hullRefined (hull : List Vec3) : List Vec3 :=
  refineWalk (resampleMinDist hull) hull

theorem loopMin_eq (xs : List ℚ) : ∀ a : ℚ,
    xs.foldl (fun m l => if m > l ∧ l > 1/100 then l else m) a =
    (xs.filter (fun l => 1/100 < l)).foldl min a := by
  induction xs with
  | nil => intro a; rfl
  | cons x xs ih =>
    intro a
    simp only [List.foldl_cons, List.filter_cons, decide_eq_true_eq]
    by_cases hx : 1/100 < x
    · rw [if_pos hx]
      simp only [List.foldl_cons]
      by_cases hax : x < a
      · rw [if_pos ⟨hax, hx⟩, ih x, min_eq_right (le_of_lt hax)]
      · rw [if_neg (by tauto), ih a, min_eq_left (le_of_not_lt hax)]
    · rw [if_neg hx]
      rw [if_neg (by tauto), ih a]

theorem loopMin_gt (xs : List ℚ) : ∀ a : ℚ, 1/100 < a →
    1/100 < xs.foldl (fun m l => if m > l ∧ l > 1/100 then l else m) a := by
  induction xs with
  | nil => intro a ha; exact ha
  | cons x xs ih =>
    intro a ha
    simp only [List.foldl_cons]
    by_cases hc : a > x ∧ x > 1/100
    · rw [if_pos hc]; exact ih x hc.2
    · rw [if_neg hc]; exact ih a ha

theorem resampleMinDist_gt (hull : List Vec3) :
    1/100 < resampleMinDist hull :=
  loopMin_gt _ _ (by norm_num)

theorem Vec3.add_sub_cancel_left (a v : Vec3) : (a + v) - a = v := by
  cases a; cases v
  simp only [Vec3.add_def, Vec3.sub_def, Vec3.mk.injEq]
  refine ⟨by ring, by ring, by ring⟩

theorem Vec3.add_smul_sub (a d : Vec3) (c e : ℚ) :
    (a + Vec3.smul c d) - (a + Vec3.smul e d) = Vec3.smul (c - e) d := by
  cases a; cases d
  simp only [Vec3.add_def, Vec3.sub_def, Vec3.smul, Vec3.mk.injEq]
  refine ⟨by ring, by ring, by ring⟩

theorem Vec3.normSq_smul (c : ℚ) (v : Vec3) :
    (Vec3.smul c v).normSq = c * c * v.normSq := by
  cases v
  simp only [Vec3.smul, Vec3.normSq, Vec3.dot]
  ring

theorem Vec3.normSq_nonneg (v : Vec3) : 0 ≤ v.normSq := by
  cases v with
  | mk x y z =>
    simp only [Vec3.normSq, Vec3.dot]
    nlinarith [mul_self_nonneg x, mul_self_nonneg y, mul_self_nonneg z]

theorem Vec3.normSq_eq_zero {v : Vec3} (h : v.normSq = 0) : v = ⟨0, 0, 0⟩ := by
  cases v with
  | mk x y z =>
    simp only [Vec3.normSq, Vec3.dot] at h
    have hx : x * x = 0 := le_antisymm
      (by nlinarith [mul_self_nonneg y, mul_self_nonneg z]) (mul_self_nonneg x)
    have hy : y * y = 0 := le_antisymm
      (by nlinarith [mul_self_nonneg x, mul_self_nonneg z]) (mul_self_nonneg y)
    have hz : z * z = 0 := le_antisymm
      (by nlinarith [mul_self_nonneg x, mul_self_nonneg y]) (mul_self_nonneg z)
    simp [mul_self_eq_zero.mp hx, mul_self_eq_zero.mp hy, mul_self_eq_zero.mp hz]

theorem Vec3.norm_nonneg (v : Vec3) : 0 ≤ v.norm := ratSqrt_nonneg _

theorem Vec3.sub_eq_zero_iff {a b : Vec3} : b - a = ⟨0, 0, 0⟩ ↔ b = a := by
  cases a; cases b
  simp only [Vec3.sub_def, Vec3.mk.injEq]
  constructor
  · rintro ⟨h1, h2, h3⟩
    refine ⟨by linarith, by linarith, by linarith⟩
  · rintro ⟨h1, h2, h3⟩
    refine ⟨by linarith, by linarith, by linarith⟩

theorem Vec3.one_smul (v : Vec3) : Vec3.smul 1 v = v := by
  cases v
  simp only [Vec3.smul, Vec3.mk.injEq]
  refine ⟨by ring, by ring, by ring⟩

theorem Vec3.add_sub_cancel (a b : Vec3) : a + (b - a) = b := by
  cases a; cases b
  simp only [Vec3.add_def, Vec3.sub_def, Vec3.mk.injEq]
  refine ⟨by ring, by ring, by ring⟩

/-- Core bound: `(1/n)^2 s <= m^2` where `n = ceil(r/m)`, `r` the exact
length of the edge and `s` its squared length. -/
theorem refineEdge_step_bound (m : ℚ) (hm : 0 < m) (a b : Vec3)
    (hex : (b - a).norm * (b - a).norm = (b - a).normSq)
    (hn : refineIntervals m a b ≠ 0) :
    (1 / ((refineIntervals m a b : ℕ) : ℚ)) *
      (1 / ((refineIntervals m a b : ℕ) : ℚ)) * (b - a).normSq ≤ m * m := by
  set r := (b - a).norm with hr_def
  set n := refineIntervals m a b with hn_def
  have hr : 0 ≤ r := Vec3.norm_nonneg _
  have hrm : 0 ≤ r / m := div_nonneg hr hm.le
  have hceil : (0:ℤ) ≤ ⌈r / m⌉ := Int.ceil_nonneg hrm
  have hcast : ((n : ℕ) : ℚ) = ((⌈r / m⌉ : ℤ) : ℚ) := by
    rw [hn_def]
    unfold refineIntervals
    exact_mod_cast congrArg (fun z : ℤ => (z : ℚ)) (Int.toNat_of_nonneg hceil)
  have hle : r / m ≤ ((n : ℕ) : ℚ) := by
    rw [hcast]; exact Int.le_ceil _
  have hnpos : 0 < ((n : ℕ) : ℚ) := by
    exact_mod_cast Nat.pos_of_ne_zero hn
  have h1 : r ≤ m * n := by
    rw [div_le_iff₀ hm] at hle
    calc r ≤ (n : ℚ) * m := hle
    _ = m * n := by ring
  have h2 : (b - a).normSq ≤ (m * n) * (m * n) := by
    rw [← hex]
    exact mul_self_le_mul_self hr h1
  have h3 : (1 / ((n:ℕ) : ℚ)) * (1 / ((n:ℕ) : ℚ)) * (b - a).normSq ≤
      (1 / ((n:ℕ) : ℚ)) * (1 / ((n:ℕ) : ℚ)) * ((m * n) * (m * n)) := by
    apply mul_le_mul_of_nonneg_left h2
    positivity
  have h4 : (1 / ((n:ℕ) : ℚ)) * (1 / ((n:ℕ) : ℚ)) * ((m * n) * (m * n)) = m * m := by
    field_simp
    ring
  linarith

/-- Each hull edge, together with its generated resample points, forms a
chain whose squared step lengths are at most `m^2`. -/
theorem refineEdge_chain (m : ℚ) (hm : 0 < m) (a b : Vec3)
    (hex : (b - a).norm * (b - a).norm = (b - a).normSq) :
    List.Chain' (fun p q : Vec3 => (q - p).normSq ≤ m * m)
      (a :: refineEdge m a b) := by
  rw [List.chain'_iff_get]
  intro i hi
  have hlen : (a :: refineEdge m a b).length = refineIntervals m a b + 1 := by
    simp [refineEdge]
  rw [hlen] at hi
  simp only [Nat.add_sub_cancel] at hi
  have hn : refineIntervals m a b ≠ 0 := by omega
  have hbound := refineEdge_step_bound m hm a b hex hn
  match i, hi with
  | 0, hi =>
    simp only [refineEdge, List.get_eq_getElem, List.getElem_cons_zero,
      List.getElem_cons_succ, List.getElem_map, List.getElem_range]
    rw [Vec3.add_sub_cancel_left, Vec3.normSq_smul]
    have hc : (((0:ℕ) : ℚ) + 1) / ((refineIntervals m a b : ℕ) : ℚ) =
        1 / ((refineIntervals m a b : ℕ) : ℚ) := by norm_num
    rw [hc]
    exact hbound
  | Nat.succ j, hi =>
    simp only [refineEdge, List.get_eq_getElem, List.getElem_cons_succ,
      List.getElem_map, List.getElem_range]
    rw [Vec3.add_smul_sub, Vec3.normSq_smul]
    have hc : (((j+1 : ℕ) : ℚ) + 1) / ((refineIntervals m a b : ℕ) : ℚ) -
        (((j : ℕ) : ℚ) + 1) / ((refineIntervals m a b : ℕ) : ℚ) =
        1 / ((refineIntervals m a b : ℕ) : ℚ) := by
      rw [div_sub_div_same]
      push_cast
      ring_nf
    rw [hc]
    exact hbound

/-- When an edge generates at least one point, the last generated point is
exactly the far endpoint of the edge. -/
theorem refineEdge_getLast (m : ℚ) (a b : Vec3)
    (hn : refineIntervals m a b ≠ 0) :
    (refineEdge m a b).getLast? = some b := by
  unfold refineEdge
  obtain ⟨k, hk⟩ := Nat.exists_eq_succ_of_ne_zero hn
  rw [hk, List.range_succ, List.map_append, List.map_singleton,
    List.getLast?_concat]
  congr 1
  have hne : ((k : ℚ) + 1) ≠ 0 := by positivity
  have hc : (((k : ℕ) : ℚ) + 1) / (((k + 1 : ℕ) : ℚ)) = 1 := by
    push_cast
    exact div_self hne
  rw [hc, Vec3.one_smul, Vec3.add_sub_cancel]

/-- When an edge generates no point, the edge is degenerate: its endpoints
coincide (requires the exact-square-root hypothesis). -/
theorem refineEdge_nil_eq (m : ℚ) (hm : 0 < m) (a b : Vec3)
    (hex : (b - a).norm * (b - a).norm = (b - a).normSq)
    (hn : refineIntervals m a b = 0) : b = a := by
  have hr : 0 ≤ (b - a).norm := Vec3.norm_nonneg _
  have h0 : ⌈(b - a).norm / m⌉ ≤ 0 := Int.toNat_eq_zero.mp hn
  have h1 : (b - a).norm / m ≤ ((0 : ℤ) : ℚ) := Int.ceil_le.mp h0
  have h1' : (b - a).norm / m ≤ 0 := by exact_mod_cast h1
  have h2 : (b - a).norm = m * ((b - a).norm / m) := by
    field_simp
  have h3 : (b - a).norm ≤ 0 := by
    rw [h2]
    exact mul_nonpos_of_nonneg_of_nonpos hm.le h1'
  have h4 : (b - a).normSq = 0 := by
    rw [← hex, le_antisymm h3 hr]
    ring
  exact Vec3.sub_eq_zero_iff.mp (Vec3.normSq_eq_zero h4)

/-- The full resampling walk, starting from the first hull vertex, is a
chain with squared step lengths at most `m^2`. -/
theorem refineWalk_chain (m : ℚ) (hm : 0 < m) :
    ∀ (rest : List Vec3) (a : Vec3),
      (∀ ab ∈ (a :: rest).zip rest,
        (ab.2 - ab.1).norm * (ab.2 - ab.1).norm = (ab.2 - ab.1).normSq) →
      List.Chain' (fun p q : Vec3 => (q - p).normSq ≤ m * m)
        (a :: refineWalk m (a :: rest)) := by
  intro rest
  induction rest with
  | nil =>
    intro a _
    simp [refineWalk]
  | cons b rs ih =>
    intro a hex
    have hzip : (a :: b :: rs).zip (b :: rs) = (a, b) :: ((b :: rs).zip rs) := rfl
    have hexEdge : (b - a).norm * (b - a).norm = (b - a).normSq :=
      hex (a, b) (by rw [hzip]; exact List.mem_cons_self _ _)
    have hextail : ∀ ab ∈ (b :: rs).zip rs,
        (ab.2 - ab.1).norm * (ab.2 - ab.1).norm = (ab.2 - ab.1).normSq := by
      intro ab hab
      exact hex ab (by rw [hzip]; exact List.mem_cons_of_mem _ hab)
    have IH := ih b hextail
    show List.Chain' _ (a :: (refineEdge m a b ++ refineWalk m (b :: rs)))
    rw [← List.cons_append]
    rw [List.chain'_append]
    refine ⟨refineEdge_chain m hm a b hexEdge, (List.chain'_cons'.mp IH).2, ?_⟩
    intro x hx y hy
    by_cases hn : refineIntervals m a b = 0
    · have hba : b = a := refineEdge_nil_eq m hm a b hexEdge hn
      have hE : refineEdge m a b = [] := by
        unfold refineEdge
        rw [hn]
        rfl
      rw [hE] at hx
      have hxa : a = x := by simpa using hx
      have hhead := (List.chain'_cons'.mp IH).1 y hy
      rw [← hxa, ← hba]
      exact hhead
    · have hE : (refineEdge m a b).getLast? = some b := refineEdge_getLast m a b hn
      have hEne : refineEdge m a b ≠ [] := by
        intro hnil
        rw [hnil] at hE
        simp at hE
      have hcons : (a :: refineEdge m a b).getLast? = (refineEdge m a b).getLast? := by
        rw [show a :: refineEdge m a b = [a] ++ refineEdge m a b from rfl]
        exact List.getLast?_append_of_ne_nil _ hEne
      rw [hcons, hE] at hx
      have hxb : b = x := by simpa using hx
      rw [← hxb]
      exact (List.chain'_cons'.mp IH).1 y hy

/-- Claim C4, amended: in the resampling step (entered when the hull has
more than 2 vertices), the step length equals the minimum of 0.1 and the
smallest edge length exceeding 0.01 — the hard-coded 0.1 acts as an upper
cap, not a floor — and every segment of the resampled output polyline has
(squared) length at most that step length (squared).  The exact-square-root
hypothesis states that every edge length is exactly representable, which
idealises the double-precision `norm()` of the source. -/
theorem C4_resample_amended (hull : List Vec3)
    (hex : ∀ ab ∈ hull.zip hull.tail,
      (ab.2 - ab.1).norm * (ab.2 - ab.1).norm = (ab.2 - ab.1).normSq)
    (hlen : 2 < hull.length) :
    resampleMinDist hull =
      ((edgeLens hull).filter (fun l => 1/100 < l)).foldl min (1/10) ∧
    List.Chain' (fun p q : Vec3 =>
      (q - p).normSq ≤ resampleMinDist hull * resampleMinDist hull)
      (hullRefined hull) := by
  constructor
  · exact loopMin_eq _ _
  · have hm : 0 < resampleMinDist hull :=
      lt_trans (by norm_num) (resampleMinDist_gt hull)
    obtain ⟨a, rest, rfl⟩ : ∃ a rest, hull = a :: rest := by
      cases hull with
      | nil => simp at hlen
      | cons a rest => exact ⟨a, rest, rfl⟩
    have h := refineWalk_chain (resampleMinDist (a :: rest)) hm rest a hex
    exact (List.chain'_cons'.mp h).2

/-- A hull with three vertices on the x axis: edge lengths 1/20 and 19/20. -/
def hullW : List Vec3 := [⟨0,0,0⟩, ⟨1/20,0,0⟩, ⟨1,0,0⟩]

/-- Claim C4, witness: the amended theorem applied to the concrete hull
`hullW`, whose edge lengths are exact rationals. -/
theorem C4_witness :
    ((∀ ab ∈ hullW.zip hullW.tail,
        (ab.2 - ab.1).norm * (ab.2 - ab.1).norm = (ab.2 - ab.1).normSq) ∧
      2 < hullW.length) ∧
    (resampleMinDist hullW =
        ((edgeLens hullW).filter (fun l => 1/100 < l)).foldl min (1/10) ∧
      List.Chain' (fun p q : Vec3 =>
        (q - p).normSq ≤ resampleMinDist hullW * resampleMinDist hullW)
        (hullRefined hullW)) :=
  ⟨⟨by decide, by decide⟩, C4_resample_amended hullW (by decide) (by decide)⟩

/-- Claim C4, counterexample: the hull `hullW` has an edge of length 1/20,
which is longer than the noise threshold 0.01, and the computed resample
step is 1/20 — strictly below 0.1.  A floor of 0.1 (the claim as stated)
would require the step to be at least 0.1. -/
theorem C4_counterexample :
    (1/20 : ℚ) ∈ edgeLens hullW ∧ (1/100 : ℚ) < 1/20 ∧
    resampleMinDist hullW = 1/20 ∧ ¬ (1/10 ≤ resampleMinDist hullW) := by
  decide

/-! Claim C10: projectToPlane never re-projects or exposes the points. -/

/-- Centroid of a 3-D point set (the vector `cm` of projectToPlane). -/
def planeCentroidOf (points : List Vec3) : Vec3 :=
  ⟨qMean (points.map Vec3.x), qMean (points.map Vec3.y),
   qMean (points.map Vec3.z)⟩

/-- The scatter matrix `XYZ0^T XYZ0` of the centred points. -/
def scatterOf (points : List Vec3) : Mat3 :=
  ((points.map (fun p => outer (p - planeCentroidOf points)
    (p - planeCentroidOf points))).foldr Mat3.add Mat3.zero)

/-- Index of the smallest eigenvalue (the loop of intersect.cc lines
220-227). -/
def minEigIdx (e : ℚ × ℚ × ℚ) : ℕ :=
  let idx1 := if e.2.1 < e.1 then 1 else 0
  let v1 := if e.2.1 < e.1 then e.2.1 else e.1
  if e.2.2 < v1 then 2 else idx1

/-- The fitted plane normal: the eigenvector of the smallest eigenvalue of
the scatter matrix, normalised.  The `Eigen::EigenSolver` call is modelled
by the oracle `eigS`, returning the real parts of the eigenvector matrix
and of the eigenvalues. -/
def planeNormalOf (eigS : Mat3 → Mat3 × (ℚ × ℚ × ℚ)) (points : List Vec3) :
    Vec3 :=
  vnormalize ((eigS (scatterOf points)).1.colSel
    (minEigIdx (eigS (scatterOf points)).2))

def tooFewPlaneMsg : String := "projectToPlane: Too few input points to create plane."

/-- The plane fitter `projectToPlane` (intersect.cc lines 193-257): returns
the fitted normal, and the centroid through the out-parameter. -/
def projectToPlane (eigS : Mat3 → Mat3 × (ℚ × ℚ × ℚ)) (points : List Vec3) :
    Except String (Vec3 × Vec3) :=
  if points.length < 3 then Except.error tooFewPlaneMsg
  else Except.ok (planeNormalOf eigS points, planeCentroidOf points)

/-- One full re-projection pass over the points (the body of the loop at
intersect.cc lines 249-254, applied to every index): each point is moved
onto the plane along the normal by its scalar distance. -/
def reprojectAll (normal cm : Vec3) (points : List Vec3) : List Vec3 :=
  points.map (fun p => p - Vec3.smul ((p - cm).dot normal) normal)

/-- The local vector `points` of projectToPlane after the re-projection
loop `for (i = 0; i > points.size(); ++i)`: the loop condition is false on
entry (0 is never greater than a size), so the body never executes and the
points are unchanged; the then-branch models the (dead) full pass. -/
def pointsAfterLoop (normal cm : Vec3) (points : List Vec3) : List Vec3 :=
  if 0 > points.length then reprojectAll normal cm points else points

/-- Claim C10: projectToPlane never re-projects the input points (the loop
condition `i > points.size()` is false at entry, so the local points equal
the input), and its only outputs are the returned normal and the centroid
out-parameter. -/
theorem C10_no_reprojection (eigS : Mat3 → Mat3 × (ℚ × ℚ × ℚ))
    (normal cm : Vec3) (points : List Vec3) :
    pointsAfterLoop normal cm points = points ∧
    (¬ points.length < 3 →
      projectToPlane eigS points =
        Except.ok (planeNormalOf eigS points, planeCentroidOf points)) := by
  constructor
  · unfold pointsAfterLoop
    rw [if_neg (by omega)]
  · intro h
    unfold projectToPlane
    rw [if_neg h]

/-- Identity-style eigen oracle used by the witness. -/
def eigSW : Mat3 → Mat3 × (ℚ × ℚ × ℚ) := fun A => (A, (1, 2, 3))

/-- Three concrete points. -/
def ptsThree : List Vec3 := [⟨0,0,0⟩, ⟨1,0,0⟩, ⟨0,1,0⟩]

/-- Claim C10, witness: the theorem applied to three concrete points, with
the size hypothesis discharged by computation. -/
theorem C10_witness :
    pointsAfterLoop ⟨0,0,1⟩ ⟨0,0,0⟩ ptsThree = ptsThree ∧
    projectToPlane eigSW ptsThree =
      Except.ok (planeNormalOf eigSW ptsThree, planeCentroidOf ptsThree) :=
  ⟨(C10_no_reprojection eigSW ⟨0,0,1⟩ ⟨0,0,0⟩ ptsThree).1,
   (C10_no_reprojection eigSW ⟨0,0,1⟩ ⟨0,0,0⟩ ptsThree).2 (by decide)⟩
